import Mathlib

/-!
Verification of `hannds_data.py` (repository e7mac/hannds).

This file gives a shallow embedding of the data-preparation core of the
repository — the quantizer (`AllData._convert`), the label encoder
(`HanndsDataset._compute_X_Y`), the windowed view (`HanndsDataset.__len__` /
`__getitem__`), the continuation sampler (`ContinuationSampler`), and the
train/valid/test split (`AllData.initialize_from_dir`) — and proves or
refutes the specified properties of each.

Conventions of the embedding:
* Python ints are `Nat`/`Int`; Python `//` on non-negative ints is `Nat`
  division, and on possibly-negative ints `Int.fdiv` (floor division).
* Times in seconds (floats in the source) are `ℚ`; `math.floor` / `math.ceil`
  are `Int.floor` / `Int.ciel`-style `⌊·⌋` / `⌈·⌉` on `ℚ`.
* numpy arrays along the time axis are Lean `List`s or index functions;
  Python/numpy slice semantics (negative indices wrap, bounds clamp) are
  embedded explicitly as `pySlice`.
* Fallible operations (numpy `IndexError`, Python `assert`) return
  `Except String _`.
* Generators are embedded as the list of their yielded values, with the
  terminal behaviour of the generator body recorded separately where a claim
  depends on it.
-/

namespace Hannds

/-! ### Python / numpy slice semantics

`slice_bound n i` resolves a Python slice bound `i` against a sequence of
length `n`: negative bounds count from the end and everything is clamped into
`[0, n]`.  `pySlice l a b` is `l[a:b]`. -/

def slice_bound (n : Nat) (i : Int) : Nat :=
  if i < 0 then (max ((n : Int) + i) 0).toNat else min i.toNat n

def pySlice {α : Type*} (l : List α) (a b : Int) : List α :=
  (l.drop (slice_bound l.length a)).take (slice_bound l.length b - slice_bound l.length a)

theorem slice_bound_ofNat (n m : Nat) : slice_bound n (m : Int) = min m n := by
  simp [slice_bound]

theorem pySlice_ofNat {α : Type*} (l : List α) (a b : Nat) :
    pySlice l (a : Int) (b : Int) = (l.drop (min a l.length)).take (min b l.length - min a l.length) := by
  simp [pySlice, slice_bound_ofNat]

theorem pySlice_of_le {α : Type*} (l : List α) (a b : Nat) (hab : a ≤ b) (hb : b ≤ l.length) :
    pySlice l (a : Int) (b : Int) = (l.drop a).take (b - a) := by
  rw [pySlice_ofNat, Nat.min_eq_left hb, Nat.min_eq_left (le_trans hab hb)]

/-! ### ContinuationSampler (`hannds_data.py`, lines 151–173)

`_generate_indices` is a generator: `num_batches = step = len_dataset //
batch_size`; for `i` in `range(num_batches)`, it sets `index = i` and then
`batch_size` times yields `index` and adds `step`.  The inner loop is embedded
as `innerYields` (mutable `index` made explicit), the whole stream as
`generate_indices`.

After the loops the generator body executes `raise StopIteration` (line 173).
The list `generate_indices` records the yielded values; `gen_body_raises`
records that the body ends in an explicit `raise` rather than falling off the
end (under PEP 479, i.e. Python ≥ 3.7, that raise is converted to a
`RuntimeError` when the iterator is exhausted). -/

def innerYields : Nat → Nat → Nat → List Nat
  | 0, _, _ => []
  | j + 1, index, step => index :: innerYields j (index + step) step

def generate_indices (len_dataset batch_size : Nat) : List Nat :=
  let step := len_dataset / batch_size
  (List.range step).flatMap (fun i => innerYields batch_size i step)

/-- Line 173 of `hannds_data.py`: the generator body ends with an unconditional
`raise StopIteration` (it does not simply return). -/
def gen_body_raises (_len_dataset _batch_size : Nat) : Bool := true

/-- `ContinuationSampler.__len__` (lines 161–163). -/
def sampler_len (len_dataset batch_size : Nat) : Nat :=
  let num_batches := len_dataset / batch_size
  num_batches * batch_size

theorem innerYields_eq_map (j index step : Nat) :
    innerYields j index step = (List.range j).map (fun k => index + step * k) := by
  induction j generalizing index with
  | zero => rfl
  | succ j ih =>
      rw [List.range_succ_eq_map]
      simp only [innerYields, ih, List.map_cons, List.map_map, Nat.mul_zero, Nat.add_zero]
      congr 1
      apply List.map_congr_left
      intro k _
      simp only [Function.comp_apply, Nat.mul_succ]
      omega

theorem generate_indices_eq (len_dataset batch_size : Nat) :
    generate_indices len_dataset batch_size =
      (List.range (len_dataset / batch_size)).flatMap
        (fun b => (List.range batch_size).map (fun j => b + (len_dataset / batch_size) * j)) := by
  simp only [generate_indices]
  congr 1
  funext b
  exact innerYields_eq_map batch_size b _

theorem generate_indices_length (len_dataset batch_size : Nat) :
    (generate_indices len_dataset batch_size).length =
      (len_dataset / batch_size) * batch_size := by
  rw [generate_indices_eq, List.length_flatMap]
  simp [Function.comp_def, Nat.mul_comm]

theorem generate_indices_nodup (len_dataset batch_size : Nat) :
    (generate_indices len_dataset batch_size).Nodup := by
  rw [generate_indices_eq]
  set s := len_dataset / batch_size with hs
  rcases Nat.eq_zero_or_pos s with h0 | hpos
  · simp [h0]
  · rw [List.nodup_flatMap]
    constructor
    · intro b _
      apply List.Nodup.map
      · intro x y hxy
        simp only at hxy
        exact Nat.eq_of_mul_eq_mul_left hpos (by omega)
      · exact List.nodup_range batch_size
    · rw [List.pairwise_iff_get]
      intro i j hij
      intro x hx hy
      simp only [List.get_eq_getElem, List.getElem_range, List.mem_map, List.mem_range] at hx hy
      obtain ⟨a, _, ha⟩ := hx
      obtain ⟨c, _, hc⟩ := hy
      have hi : (i : Nat) < s := by
        have := i.isLt; simpa using this
      have hj : (j : Nat) < s := by
        have := j.isLt; simpa using this
      have hlt : (i : Nat) < (j : Nat) := hij
      have hac : (i : Nat) + s * a = (j : Nat) + s * c := by rw [ha, hc]
      have hmod : (i : Nat) % s = (j : Nat) % s := by
        have h1 := Nat.add_mul_mod_self_left (i : Nat) s a
        have h2 := Nat.add_mul_mod_self_left (j : Nat) s c
        rw [← h1, ← h2, hac]
      rw [Nat.mod_eq_of_lt hi, Nat.mod_eq_of_lt hj] at hmod
      omega

theorem generate_indices_mem (len_dataset batch_size : Nat) (m : Nat) :
    m ∈ generate_indices len_dataset batch_size ↔ m < (len_dataset / batch_size) * batch_size := by
  rw [generate_indices_eq]
  set s := len_dataset / batch_size with hs
  simp only [List.mem_flatMap, List.mem_map, List.mem_range]
  constructor
  · rintro ⟨b, hbs, j, hjB, rfl⟩
    calc b + s * j < s + s * j := by omega
    _ = s * (j + 1) := by ring
    _ ≤ s * batch_size := Nat.mul_le_mul_left s hjB
  · intro hm
    rcases Nat.eq_zero_or_pos s with h0 | hpos
    · rw [h0, Nat.zero_mul] at hm
      omega
    · exact ⟨m % s, Nat.mod_lt m hpos, m / s,
        by
          have := Nat.div_mul_le_self m s
          have hdiv : m / s < batch_size := by
            by_contra hge
            push_neg at hge
            have : s * batch_size ≤ s * (m / s) := Nat.mul_le_mul_left s hge
            have h2 : s * (m / s) ≤ m := by
              rw [Nat.mul_comm]; exact Nat.div_mul_le_self m s
            omega
          exact ⟨hdiv, by rw [Nat.mod_add_div m s]⟩⟩

/-- C1: with `stride = num_windows / batch_size`, the ContinuationSampler's
yielded stream is exactly `b + stride * j` for `b = 0 .. stride-1` (outer) and
`j = 0 .. batch_size-1` (inner); its length is `stride * batch_size`; it is
duplicate-free and contains exactly the indices in `[0, stride * batch_size)`;
and for `num_windows = 40, batch_size = 5` it is the concrete stream
`[0,8,16,24,32, 1,9,17,25,33, …, 7,15,23,31,39]`. -/
theorem continuation_sampler_stream (num_windows batch_size : Nat) (_hb : 1 ≤ batch_size) :
    generate_indices num_windows batch_size =
      (List.range (num_windows / batch_size)).flatMap
        (fun b => (List.range batch_size).map (fun j => b + (num_windows / batch_size) * j))
    ∧ (generate_indices num_windows batch_size).length = (num_windows / batch_size) * batch_size
    ∧ (generate_indices num_windows batch_size).Nodup
    ∧ (∀ m, m ∈ generate_indices num_windows batch_size ↔
        m < (num_windows / batch_size) * batch_size)
    ∧ generate_indices 40 5 =
        [0, 8, 16, 24, 32, 1, 9, 17, 25, 33, 2, 10, 18, 26, 34, 3, 11, 19, 27, 35,
         4, 12, 20, 28, 36, 5, 13, 21, 29, 37, 6, 14, 22, 30, 38, 7, 15, 23, 31, 39] := by
  refine ⟨generate_indices_eq _ _, generate_indices_length _ _, generate_indices_nodup _ _,
    generate_indices_mem _ _, by decide⟩

/-- C1 witness: the theorem applied at `num_windows = 40`, `batch_size = 5`. -/
theorem continuation_sampler_stream_witness :
    (1 ≤ 5) ∧ (generate_indices 40 5).Nodup :=
  ⟨by decide, (continuation_sampler_stream 40 5 (by decide)).2.2.1⟩

/-- C2: with `num_windows = 3, batch_size = 10` (so `stride = 0`) the sampler
yields no indices — but the generator body then executes its unconditional
`raise StopIteration` (line 173), which under PEP 479 (Python ≥ 3.7) surfaces
as a `RuntimeError` when the iterator finishes, so iteration does *not*
terminate cleanly. -/
theorem continuation_sampler_empty_but_raises :
    generate_indices 3 10 = [] ∧ generate_indices 0 4 = [] ∧ gen_body_raises 3 10 = true := by
  exact ⟨by decide, by decide, rfl⟩

/-! ### HanndsDataset windowed view (`hannds_data.py`, lines 133–148)

`__len__`: `1` if `len_sequence == -1`, else `X.shape[0] // len_sequence - 1`
(Python `//` is floor division, embedded as `Int.fdiv`).  `__getitem__`
returns the whole `(X, Y)` pair for `len_sequence == -1`, otherwise the slices
`X[start:end]`, `Y[start:end]` with `start = idx * len_sequence`,
`end = start + len_sequence`, after the assert
`res1.shape[0] == res2.shape[0] == len_sequence` (embedded as the `Except`
error path).  The time axis of `X`/`Y` is embedded as a Lean list. -/

def hannds_len (T : Nat) (len_sequence : Int) : Int :=
  if len_sequence = -1 then 1 else Int.fdiv (T : Int) len_sequence - 1

def hannds_getitem {α β : Type*} (X : List α) (Y : List β) (len_sequence : Int) (idx : Nat) :
    Except String (List α × List β) :=
  if len_sequence = -1 then .ok (X, Y)
  else
    let start := (idx : Int) * len_sequence
    let stop := start + len_sequence
    let res1 := pySlice X start stop
    let res2 := pySlice Y start stop
    if res1.length = res2.length ∧ (res2.length : Int) = len_sequence then .ok (res1, res2)
    else .error "AssertionError"

/-- The `X` halves of all windows of the view, concatenated in index order. -/
def concat_windows_X {α β : Type*} (X : List α) (Y : List β) (len_sequence : Int) : List α :=
  ((List.range (hannds_len X.length len_sequence).toNat).map
    (fun i => ((hannds_getitem X Y len_sequence i).toOption.map Prod.fst).getD [])).flatten

/-- The `Y` halves of all windows of the view, concatenated in index order. -/
def concat_windows_Y {α β : Type*} (X : List α) (Y : List β) (len_sequence : Int) : List β :=
  ((List.range (hannds_len X.length len_sequence).toNat).map
    (fun i => ((hannds_getitem X Y len_sequence i).toOption.map Prod.snd).getD [])).flatten

theorem hannds_len_pos_case (T n : Nat) (hn : 0 < n) :
    hannds_len T (n : Int) = ((T / n : Nat) : Int) - 1 := by
  have hne : (n : Int) ≠ -1 := by omega
  simp only [hannds_len, if_neg hne]
  rw [Int.fdiv_eq_ediv _ (by exact_mod_cast Nat.zero_le n), ← Int.natCast_div]

/-- C3: for `len_sequence > 0` and `(X, Y)` with `T` time steps, the view's
length is `floor(T / len_sequence) - 1`, and every valid index `i` yields the
slices `[i*len_sequence, i*len_sequence + len_sequence)` of `X` and of `Y`,
both of first-dimension length exactly `len_sequence` — the internal shape
assertion never fires. -/
theorem windowed_view_valid_index {α β : Type*} (len_sequence : Int)
    (hpos : 0 < len_sequence) (X : List α) (Y : List β) (hY : Y.length = X.length)
    (i : Nat) (hi : (i : Int) < hannds_len X.length len_sequence) :
    hannds_len X.length len_sequence = Int.fdiv (X.length : Int) len_sequence - 1
    ∧ hannds_getitem X Y len_sequence i =
        .ok ((X.drop (i * len_sequence.toNat)).take len_sequence.toNat,
             (Y.drop (i * len_sequence.toNat)).take len_sequence.toNat)
    ∧ ((X.drop (i * len_sequence.toNat)).take len_sequence.toNat).length = len_sequence.toNat
    ∧ ((Y.drop (i * len_sequence.toNat)).take len_sequence.toNat).length = len_sequence.toNat := by
  obtain ⟨n, rfl⟩ : ∃ n : Nat, len_sequence = (n : Int) :=
    ⟨len_sequence.toNat, (Int.toNat_of_nonneg (le_of_lt hpos)).symm⟩
  have hn : 0 < n := by exact_mod_cast hpos
  have hne : (n : Int) ≠ -1 := by omega
  set T := X.length with hT
  -- the valid-index hypothesis gives `i + 2 ≤ T / n`, hence the slice fits
  rw [hannds_len_pos_case T n hn] at hi
  have hi2 : i + 2 ≤ T / n := by exact_mod_cast by omega
  have hfit : i * n + n ≤ T := by
    have h1 : (i + 2) * n ≤ (T / n) * n := Nat.mul_le_mul_right n hi2
    have h2 : (T / n) * n ≤ T := Nat.div_mul_le_self T n
    nlinarith
  have hfitY : i * n + n ≤ Y.length := by omega
  have hcast1 : (i : Int) * (n : Int) = ((i * n : Nat) : Int) := by push_cast; ring
  have hcast2 : ((i * n : Nat) : Int) + (n : Int) = ((i * n + n : Nat) : Int) := by
    push_cast; ring
  have hsliceX : pySlice X ((i : Int) * n) ((i : Int) * n + n) = (X.drop (i * n)).take n := by
    rw [hcast1, hcast2, pySlice_of_le X (i * n) (i * n + n) (by omega) hfit]
    congr 1
    omega
  have hsliceY : pySlice Y ((i : Int) * n) ((i : Int) * n + n) = (Y.drop (i * n)).take n := by
    rw [hcast1, hcast2, pySlice_of_le Y (i * n) (i * n + n) (by omega) hfitY]
    congr 1
    omega
  have hlenX : ((X.drop (i * n)).take n).length = n := by
    rw [List.length_take, List.length_drop]
    omega
  have hlenY : ((Y.drop (i * n)).take n).length = n := by
    rw [List.length_take, List.length_drop]
    omega
  refine ⟨by simp [hannds_len, if_neg hne], ?_, ?_, ?_⟩
  · simp only [hannds_getitem, if_neg hne, Int.toNat_natCast]
    rw [hsliceX, hsliceY, hlenX, hlenY]
    rw [if_pos ⟨rfl, rfl⟩]
  · simpa using hlenX
  · simpa using hlenY

/-- C3 witness: `len_sequence = 2`, `X = Y = [0,…,6]` (`T = 7`, view length
`7/2 - 1 = 2`), index `i = 1`: the window is `[2, 3]`. -/
theorem windowed_view_valid_index_witness :
    (0 : Int) < 2 ∧ [0, 1, 2, 3, 4, 5, 6].length = [0, 1, 2, 3, 4, 5, 6].length
    ∧ ((1 : Nat) : Int) < hannds_len [0, 1, 2, 3, 4, 5, 6].length 2
    ∧ (hannds_len [0, 1, 2, 3, 4, 5, 6].length 2 = Int.fdiv ([0, 1, 2, 3, 4, 5, 6].length : Int) 2 - 1
       ∧ hannds_getitem [0, 1, 2, 3, 4, 5, 6] [0, 1, 2, 3, 4, 5, 6] 2 1 =
           .ok (([0, 1, 2, 3, 4, 5, 6].drop (1 * (2 : Int).toNat)).take (2 : Int).toNat,
                ([0, 1, 2, 3, 4, 5, 6].drop (1 * (2 : Int).toNat)).take (2 : Int).toNat)
       ∧ (([0, 1, 2, 3, 4, 5, 6].drop (1 * (2 : Int).toNat)).take (2 : Int).toNat).length = (2 : Int).toNat
       ∧ (([0, 1, 2, 3, 4, 5, 6].drop (1 * (2 : Int).toNat)).take (2 : Int).toNat).length = (2 : Int).toNat) :=
  ⟨by decide, rfl, by decide,
    windowed_view_valid_index 2 (by decide) [0, 1, 2, 3, 4, 5, 6] [0, 1, 2, 3, 4, 5, 6] rfl 1 (by decide)⟩

/-- C7: with `len_sequence = -1` the view has exactly one element for any
`T ≥ 0`, that element is the entire `(X, Y)` pair unmodified, and
concatenating all windows of the view reproduces `X` and `Y` exactly. -/
theorem unbounded_view_identity {α β : Type*} (X : List α) (Y : List β) :
    hannds_len X.length (-1) = 1
    ∧ hannds_getitem X Y (-1) 0 = .ok (X, Y)
    ∧ concat_windows_X X Y (-1) = X
    ∧ concat_windows_Y X Y (-1) = Y := by
  refine ⟨rfl, rfl, ?_, ?_⟩
  · simp [concat_windows_X, hannds_len, hannds_getitem, List.range_succ, Except.toOption]
  · simp [concat_windows_Y, hannds_len, hannds_getitem, List.range_succ, Except.toOption]

/-! ### Label encoder (`hannds_data.py`, lines 101–131)

`HanndsDataset._compute_X_Y` takes the boolean activity grid `data` of shape
`[T][2][88]` (embedded as an index function `t → hand → key → Bool`) and
produces `X = logical_or(data[:,0,:], data[:,1,:])` cast to float (values
0.0/1.0, embedded exactly in `ℚ`) and `Y` built by `Y = zeros`, then
`Y[data[:,0,:]] = LEFT_HAND_LABEL`, then `Y[data[:,1,:]] = RIGHT_HAND_LABEL`
(two sequential masked assignments, right written last), cast to `longlong`. -/

def LEFT_HAND_LABEL : Int := 1

def RIGHT_HAND_LABEL : Int := 2

/-- The `X` half of `_compute_X_Y`: `np.logical_or(data[:,0,:], data[:,1,:])`
followed by `astype(np.float32)`. -/
def compute_X (data : Nat → Nat → Nat → Bool) : Nat → Nat → ℚ :=
  fun t k => if data t 0 k || data t 1 k then 1 else 0

/-- The `Y` half of `_compute_X_Y`: `np.zeros`, then the masked assignment
`Y[data[:,0,:]] = LEFT_HAND_LABEL`, then `Y[data[:,1,:]] = RIGHT_HAND_LABEL`,
followed by `astype(np.longlong)`. -/
def compute_Y (data : Nat → Nat → Nat → Bool) : Nat → Nat → Int :=
  let Y0 : Nat → Nat → Int := fun _ _ => 0
  let Y1 : Nat → Nat → Int := fun t k => if data t 0 k then LEFT_HAND_LABEL else Y0 t k
  fun t k => if data t 1 k then RIGHT_HAND_LABEL else Y1 t k

/-- C4: for every boolean activity grid and all `t`, `k`:
`X[t][k] == 1` iff `Y[t][k] != 0`, including cells where both hands are
active. -/
theorem X_one_iff_Y_nonzero (data : Nat → Nat → Nat → Bool) (t k : Nat) :
    compute_X data t k = 1 ↔ compute_Y data t k ≠ 0 := by
  cases h0 : data t 0 k <;> cases h1 : data t 1 k <;>
    simp [compute_X, compute_Y, h0, h1, LEFT_HAND_LABEL, RIGHT_HAND_LABEL]

/-- C5: `Y` is 0 everywhere except that cells under the left-hand mask are set
to 1 and then cells under the right-hand mask are unconditionally overwritten
with 2; consequently a cell where both hands are active holds 2. -/
theorem Y_right_hand_precedence (data : Nat → Nat → Nat → Bool) (t k : Nat) :
    compute_Y data t k =
      (if data t 1 k then RIGHT_HAND_LABEL else if data t 0 k then LEFT_HAND_LABEL else 0)
    ∧ (data t 0 k = true → data t 1 k = true → compute_Y data t k = 2) := by
  refine ⟨rfl, fun _ h1 => ?_⟩
  simp [compute_Y, h1, RIGHT_HAND_LABEL]

/-- C5 witness: on a grid whose cell `(0, hand, 0)` is active for both hands,
`Y[0][0] = 2`. -/
theorem Y_right_hand_precedence_witness :
    compute_Y (fun _ _ _ => true) 0 0 = 2 :=
  (Y_right_hand_precedence (fun _ _ _ => true) 0 0).2 rfl rfl

/-! ### Buffer-identity model of `_compute_X_Y` (claim C10)

To settle the frame claim — construction never mutates the caller's
`npy_data` buffer — the same source lines are embedded once more at the level
of numpy buffers.  A `Heap` maps buffer ids to stored values (uniformly rank-3
integer-valued index functions; a 2-d array ignores the third index, booleans
are 0/1 under Python truthiness).  `astype`, `np.logical_or` and `np.zeros`
allocate fresh buffers; the two masked assignments write in place to the `Y`
buffer; nothing writes to the input buffer. -/

def Val : Type := Nat → Nat → Nat → Int

structure Heap where
  mem : Nat → Val
  next : Nat

def Heap.alloc (h : Heap) (v : Val) : Nat × Heap :=
  (h.next, ⟨fun r => if r = h.next then v else h.mem r, h.next + 1⟩)

def Heap.write (h : Heap) (r : Nat) (v : Val) : Heap :=
  ⟨fun r2 => if r2 = r then v else h.mem r2, h.next⟩

/-- Python truthiness of a stored scalar, as `astype(np.bool)` applies it. -/
def truthy (z : Int) : Bool := z != 0

/-- Buffer-level embedding of `_compute_X_Y` (lines 118–131): returns the
final heap and the ids of the returned `X` and `Y` buffers. -/
def compute_X_Y_heap (h0 : Heap) (dataRef : Nat) : Heap × Nat × Nat :=
  -- line 119: data = data.astype(np.bool) — allocates a fresh boolean copy
  let p1 := h0.alloc (fun t hand k => if truthy (h0.mem dataRef t hand k) then 1 else 0)
  let dataB := p1.1
  let h1 := p1.2
  -- line 123: X = np.logical_or(data[:, 0, :], data[:, 1, :]) — fresh result
  let p2 := h1.alloc
    (fun t k _ => if truthy (h1.mem dataB t 0 k) || truthy (h1.mem dataB t 1 k) then 1 else 0)
  let xRef := p2.1
  let h2 := p2.2
  -- line 128: Y = np.zeros((batch_size, 88))
  let p3 := h2.alloc (fun _ _ _ => 0)
  let yRef := p3.1
  let h3 := p3.2
  -- line 129: Y[data[:, 0, :]] = LEFT_HAND_LABEL — in-place masked write to Y
  let h4 := h3.write yRef
    (fun t k u => if truthy (h3.mem dataB t 0 k) then LEFT_HAND_LABEL else h3.mem yRef t k u)
  -- line 130: Y[data[:, 1, :]] = RIGHT_HAND_LABEL — in-place masked write to Y
  let h5 := h4.write yRef
    (fun t k u => if truthy (h4.mem dataB t 1 k) then RIGHT_HAND_LABEL else h4.mem yRef t k u)
  -- line 131: return X.astype(np.float32), Y.astype(np.longlong) — fresh copies
  let p4 := h5.alloc (h5.mem xRef)
  let h6 := p4.2
  let p5 := h6.alloc (h6.mem yRef)
  (p5.2, p4.1, p5.1)

/-- C10: running `_compute_X_Y` leaves the caller's `npy_data` buffer
byte-for-byte unchanged — every operation either allocates a fresh buffer or
writes in place to the freshly allocated `Y`, never to the input. -/
theorem compute_X_Y_no_mutation (h0 : Heap) (dataRef : Nat) (hr : dataRef < h0.next) :
    (compute_X_Y_heap h0 dataRef).1.mem dataRef = h0.mem dataRef := by
  have e0 : dataRef ≠ h0.next := by omega
  have e1 : dataRef ≠ h0.next + 1 := by omega
  have e2 : dataRef ≠ h0.next + 2 := by omega
  have e3 : dataRef ≠ h0.next + 3 := by omega
  have e4 : dataRef ≠ h0.next + 4 := by omega
  simp [compute_X_Y_heap, Heap.alloc, Heap.write, e0, e1, e2, e3, e4]

/-- C10 witness: a one-buffer heap; the input buffer is unchanged. -/
theorem compute_X_Y_no_mutation_witness :
    0 < 1 ∧ (compute_X_Y_heap ⟨fun _ => fun _ _ _ => 0, 1⟩ 0).1.mem 0 =
      (Heap.mk (fun _ => fun _ _ _ => 0) 1).mem 0 :=
  ⟨by decide, compute_X_Y_no_mutation ⟨fun _ => fun _ _ _ => 0, 1⟩ 0 (by decide)⟩

/-! ### Quantizer (`AllData._convert`, `hannds_data.py`, lines 61–89)

`samples_per_sec = 1000 // ms_window` (line 64); `n_windows =
math.ceil(midi.get_end_time() * samples_per_sec)` (line 74); the grid starts
all-false; for each hand (0 = left, 1 = right) and each of its notes,
`hands[start:end, hand, note.pitch - 21] = True` with `start =
int(math.floor(note.start * samples_per_sec))`, `end =
int(math.ceil(note.end * samples_per_sec))` (lines 82–86).

Times (floats in the source) are `ℚ`.  The slice on axis 0 follows numpy
slice semantics (`slice_bound`); the basic integer index `note.pitch - 21` on
axis 2 follows numpy basic-indexing semantics: an index `i` with
`-88 ≤ i < 88` is accepted (negative values wrap to `i + 88`), anything else
raises `IndexError` (`resolve_index`). -/

structure NoteEvent where
  pitch : Nat
  start_time : ℚ
  end_time : ℚ

structure ActivityGrid where
  T : Nat
  cell : Nat → Nat → Nat → Bool

def samples_per_sec (ms_window : Nat) : Nat := 1000 / ms_window

/-- numpy basic integer indexing into an axis of size `n`. -/
def resolve_index (n : Nat) (i : Int) : Except String Nat :=
  let j := if i < 0 then i + (n : Int) else i
  if 0 ≤ j ∧ j < (n : Int) then .ok j.toNat else .error "IndexError"

/-- One statement `hands[start:end, hand, note.pitch - 21] = True`
(lines 84–86). -/
def write_note (g : ActivityGrid) (hand : Nat) (rate : Nat) (note : NoteEvent) :
    Except String ActivityGrid :=
  let start : Int := ⌊note.start_time * (rate : ℚ)⌋
  let stop : Int := ⌈note.end_time * (rate : ℚ)⌉
  let lo := slice_bound g.T start
  let hi := slice_bound g.T stop
  match resolve_index 88 ((note.pitch : Int) - 21) with
  | .error e => .error e
  | .ok k0 =>
      .ok ⟨g.T, fun t h k => if lo ≤ t ∧ t < hi ∧ h = hand ∧ k = k0 then true else g.cell t h k⟩

/-- The inner loop `for note in midi_hand.notes` for one hand (lines 83–86). -/
def process_hand (g : ActivityGrid) (hand : Nat) (rate : Nat) (notes : List NoteEvent) :
    Except String ActivityGrid :=
  notes.foldlM (fun g note => write_note g hand rate note) g

/-- `_convert` for one file: grid allocation (lines 74–79) and the hand loop
(lines 82–86), with `midi_data = (instruments[0], instruments[1])` given as
the two note lists and `midi.get_end_time()` as `duration`. -/
def convert_grid (duration : ℚ) (rate : Nat) (left_notes right_notes : List NoteEvent) :
    Except String ActivityGrid :=
  let n_windows := (⌈duration * (rate : ℚ)⌉).toNat
  let init : ActivityGrid := ⟨n_windows, fun _ _ _ => false⟩
  match process_hand init 0 rate left_notes with
  | .error e => .error e
  | .ok g1 => process_hand g1 1 rate right_notes

def grid_cell (r : Except String ActivityGrid) (t h k : Nat) : Option Bool :=
  match r with
  | .ok g => some (g.cell t h k)
  | .error _ => none

def grid_ok (r : Except String ActivityGrid) : Bool :=
  match r with
  | .ok _ => true
  | .error _ => false

/-- Well-formed note events in the sense of the spec's data model. -/
def well_formed (e : NoteEvent) : Prop :=
  21 ≤ e.pitch ∧ e.pitch ≤ 108 ∧ 0 ≤ e.start_time ∧ e.start_time ≤ e.end_time

theorem resolve_index_valid (p : Nat) (h21 : 21 ≤ p) (h108 : p ≤ 108) :
    resolve_index 88 ((p : Int) - 21) = .ok (p - 21) := by
  unfold resolve_index
  rw [if_neg (by omega : ¬((p : Int) - 21 < 0))]
  rw [if_pos (by omega : (0 : Int) ≤ (p : Int) - 21 ∧ (p : Int) - 21 < (88 : Nat))]
  congr 1
  omega

theorem process_hand_ok (rate : Nat) (hand : Nat) (notes : List NoteEvent)
    (hwf : ∀ e ∈ notes, 21 ≤ e.pitch ∧ e.pitch ≤ 108) (g : ActivityGrid) :
    ∃ g', process_hand g hand rate notes = .ok g' ∧ g'.T = g.T ∧
      ∀ t h k, (g'.cell t h k = true ↔
        (g.cell t h k = true ∨ ∃ e ∈ notes, e.pitch - 21 = k ∧ h = hand ∧
          slice_bound g.T ⌊e.start_time * (rate : ℚ)⌋ ≤ t ∧
          t < slice_bound g.T ⌈e.end_time * (rate : ℚ)⌉)) := by
  induction notes generalizing g with
  | nil =>
      refine ⟨g, ?_, rfl, ?_⟩
      · simp [process_hand, pure, Except.pure]
      · intro t h k
        simp
  | cons e es ih =>
      have he := hwf e (List.mem_cons_self e es)
      have hes : ∀ x ∈ es, 21 ≤ x.pitch ∧ x.pitch ≤ 108 :=
        fun x hx => hwf x (List.mem_cons_of_mem e hx)
      have hw : write_note g hand rate e =
          .ok ⟨g.T, fun t h k =>
            if slice_bound g.T ⌊e.start_time * (rate : ℚ)⌋ ≤ t ∧
                t < slice_bound g.T ⌈e.end_time * (rate : ℚ)⌉ ∧ h = hand ∧ k = e.pitch - 21
            then true else g.cell t h k⟩ := by
        unfold write_note
        rw [resolve_index_valid e.pitch he.1 he.2]
      obtain ⟨g', hrun, hT, hcell⟩ := ih hes
        ⟨g.T, fun t h k =>
          if slice_bound g.T ⌊e.start_time * (rate : ℚ)⌋ ≤ t ∧
              t < slice_bound g.T ⌈e.end_time * (rate : ℚ)⌉ ∧ h = hand ∧ k = e.pitch - 21
          then true else g.cell t h k⟩
      refine ⟨g', ?_, hT, ?_⟩
      · simp only [process_hand] at hrun ⊢
        rw [List.foldlM_cons, hw]
        exact hrun
      · intro t h k
        rw [hcell t h k]
        simp only [List.mem_cons]
        constructor
        · rintro (hbase | ⟨x, hx, hrest⟩)
          · by_cases hcond : slice_bound g.T ⌊e.start_time * (rate : ℚ)⌋ ≤ t ∧
                t < slice_bound g.T ⌈e.end_time * (rate : ℚ)⌉ ∧ h = hand ∧ k = e.pitch - 21
            · exact Or.inr ⟨e, Or.inl rfl, hcond.2.2.2.symm, hcond.2.2.1, hcond.1, hcond.2.1⟩
            · rw [if_neg hcond] at hbase
              exact Or.inl hbase
          · exact Or.inr ⟨x, Or.inr hx, hrest⟩
        · rintro (hbase | ⟨x, hx | hx, hrest⟩)
          · left
            by_cases hcond : slice_bound g.T ⌊e.start_time * (rate : ℚ)⌋ ≤ t ∧
                t < slice_bound g.T ⌈e.end_time * (rate : ℚ)⌉ ∧ h = hand ∧ k = e.pitch - 21
            · rw [if_pos hcond]
            · rw [if_neg hcond]
              exact hbase
          · left
            subst hx
            rw [if_pos ⟨hrest.2.2.1, hrest.2.2.2, hrest.2.1, hrest.1.symm⟩]
          · exact Or.inr ⟨x, hx, hrest⟩

theorem slice_cond_iff (T t : Nat) (ht : t < T) (a b : Int) (ha : 0 ≤ a) (hb : 0 ≤ b) :
    (slice_bound T a ≤ t ∧ t < slice_bound T b) ↔ (a ≤ (t : Int) ∧ (t : Int) < b) := by
  unfold slice_bound
  rw [if_neg (by omega : ¬(a < 0)), if_neg (by omega : ¬(b < 0))]
  omega

/-- C6: for well-formed inputs the quantizer succeeds and produces a grid of
shape `[T][2][88]` with `T = ceil(duration * rate)`, `rate = 1000 // ms_window`,
in which cell `[t][h][k]` is true iff some event of hand `h` with pitch
`k + 21` satisfies `floor(start_time * rate) ≤ t < ceil(end_time * rate)`
(half-open coverage); all other cells are false. -/
theorem quantizer_half_open_coverage (ms_window : Nat) (duration : ℚ)
    (left_notes right_notes : List NoteEvent) (_hdur : 0 ≤ duration)
    (hwf : ∀ e ∈ left_notes ++ right_notes, well_formed e) :
    ∃ g, convert_grid duration (samples_per_sec ms_window) left_notes right_notes = .ok g
      ∧ g.T = (⌈duration * ((samples_per_sec ms_window : Nat) : ℚ)⌉).toNat
      ∧ ∀ t, t < g.T → ∀ h, h < 2 → ∀ k,
          (g.cell t h k = true ↔
            ∃ e ∈ (if h = 0 then left_notes else right_notes),
              e.pitch = k + 21 ∧
              ⌊e.start_time * ((samples_per_sec ms_window : Nat) : ℚ)⌋ ≤ (t : Int) ∧
              (t : Int) < ⌈e.end_time * ((samples_per_sec ms_window : Nat) : ℚ)⌉) := by
  set rate := samples_per_sec ms_window with hrate
  have hLwf : ∀ e ∈ left_notes, well_formed e :=
    fun e he => hwf e (List.mem_append_left _ he)
  have hRwf : ∀ e ∈ right_notes, well_formed e :=
    fun e he => hwf e (List.mem_append_right _ he)
  have hLp : ∀ e ∈ left_notes, 21 ≤ e.pitch ∧ e.pitch ≤ 108 :=
    fun e he => ⟨(hLwf e he).1, (hLwf e he).2.1⟩
  have hRp : ∀ e ∈ right_notes, 21 ≤ e.pitch ∧ e.pitch ≤ 108 :=
    fun e he => ⟨(hRwf e he).1, (hRwf e he).2.1⟩
  obtain ⟨g1, h1run, h1T, h1cell⟩ := process_hand_ok rate 0 left_notes hLp
    ⟨(⌈duration * (rate : ℚ)⌉).toNat, fun _ _ _ => false⟩
  obtain ⟨g2, h2run, h2T, h2cell⟩ := process_hand_ok rate 1 right_notes hRp g1
  rw [h1T] at h2cell
  have hbound : ∀ e : NoteEvent, well_formed e →
      (0 : Int) ≤ ⌊e.start_time * (rate : ℚ)⌋ ∧ (0 : Int) ≤ ⌈e.end_time * (rate : ℚ)⌉ := by
    intro e ⟨_, _, hs, hse⟩
    exact ⟨Int.floor_nonneg.mpr (mul_nonneg hs (Nat.cast_nonneg rate)),
      Int.ceil_nonneg (mul_nonneg (le_trans hs hse) (Nat.cast_nonneg rate))⟩
  refine ⟨g2, ?_, by rw [h2T, h1T], ?_⟩
  · simp only [convert_grid]
    rw [h1run]
    exact h2run
  · intro t ht h hh k
    have ht' : t < (⌈duration * (rate : ℚ)⌉).toNat := by
      rw [h2T, h1T] at ht
      exact ht
    rcases (by omega : h = 0 ∨ h = 1) with rfl | rfl
    · rw [if_pos rfl, h2cell t 0 k, h1cell t 0 k]
      constructor
      · rintro ((hfalse | ⟨e, he, hp, -, hlo, hhi⟩) | ⟨e, he, hp, h01, hlo, hhi⟩)
        · exact absurd hfalse (by simp)
        · obtain ⟨h21, h108, hs, hse⟩ := hLwf e he
          have hc := (slice_cond_iff _ t ht' _ _ (hbound e (hLwf e he)).1
            (hbound e (hLwf e he)).2).mp ⟨hlo, hhi⟩
          exact ⟨e, he, by omega, hc.1, hc.2⟩
        · exact absurd h01 (by decide)
      · rintro ⟨e, he, hp, hlo, hhi⟩
        obtain ⟨h21, h108, hs, hse⟩ := hLwf e he
        have hc := (slice_cond_iff _ t ht' _ _ (hbound e (hLwf e he)).1
          (hbound e (hLwf e he)).2).mpr ⟨hlo, hhi⟩
        exact Or.inl (Or.inr ⟨e, he, by omega, rfl, hc.1, hc.2⟩)
    · rw [if_neg (by decide), h2cell t 1 k, h1cell t 1 k]
      constructor
      · rintro ((hfalse | ⟨e, he, hp, h10, hlo, hhi⟩) | ⟨e, he, hp, -, hlo, hhi⟩)
        · exact absurd hfalse (by simp)
        · exact absurd h10 (by decide)
        · obtain ⟨h21, h108, hs, hse⟩ := hRwf e he
          have hc := (slice_cond_iff _ t ht' _ _ (hbound e (hRwf e he)).1
            (hbound e (hRwf e he)).2).mp ⟨hlo, hhi⟩
          exact ⟨e, he, by omega, hc.1, hc.2⟩
      · rintro ⟨e, he, hp, hlo, hhi⟩
        obtain ⟨h21, h108, hs, hse⟩ := hRwf e he
        have hc := (slice_cond_iff _ t ht' _ _ (hbound e (hRwf e he)).1
          (hbound e (hRwf e he)).2).mpr ⟨hlo, hhi⟩
        exact Or.inr ⟨e, he, by omega, rfl, hc.1, hc.2⟩

/-- C6 witness: `ms_window = 500` (rate 2), `duration = 1`, a single left-hand
note C4 (pitch 60) over `[0, 1/2)`. -/
theorem quantizer_half_open_coverage_witness :
    (0 ≤ (1 : ℚ))
    ∧ (∀ e ∈ ([⟨60, 0, 1/2⟩] : List NoteEvent) ++ [], well_formed e)
    ∧ (∃ g, convert_grid 1 (samples_per_sec 500) [⟨60, 0, 1/2⟩] [] = .ok g
        ∧ g.T = (⌈(1 : ℚ) * ((samples_per_sec 500 : Nat) : ℚ)⌉).toNat
        ∧ ∀ t, t < g.T → ∀ h, h < 2 → ∀ k,
            (g.cell t h k = true ↔
              ∃ e ∈ (if h = 0 then ([⟨60, 0, 1/2⟩] : List NoteEvent) else []),
                e.pitch = k + 21 ∧
                ⌊e.start_time * ((samples_per_sec 500 : Nat) : ℚ)⌋ ≤ (t : Int) ∧
                (t : Int) < ⌈e.end_time * ((samples_per_sec 500 : Nat) : ℚ)⌉)) :=
  ⟨by norm_num,
   by
     intro e he
     simp only [List.append_nil, List.mem_singleton] at he
     subst he
     refine ⟨by norm_num, by norm_num, by norm_num, by norm_num⟩,
   quantizer_half_open_coverage 500 1 [⟨60, 0, 1/2⟩] [] (by norm_num)
     (by
       intro e he
       simp only [List.append_nil, List.mem_singleton] at he
       subst he
       refine ⟨by norm_num, by norm_num, by norm_num, by norm_num⟩)⟩

/-- C8 counterexample: the event `pitch = 20` (below the 88-key range, key
index `-1`) together with `end_time = 1 > start_time = 0` is *not* rejected:
the quantizer returns successfully (`some …` rather than `none`), and under
numpy's negative basic indexing the activity is silently written to key index
87.  A second malformed input, `end_time = 0 < start_time = 1`, is also
accepted without error. -/
theorem quantizer_malformed_not_rejected :
    grid_cell (convert_grid 1 1 [⟨20, 0, 1⟩] []) 0 0 87 = some true
    ∧ grid_ok (convert_grid 1 1 [⟨60, 1, 0⟩] []) = true := by
  constructor <;>
    · norm_num [convert_grid, process_hand, write_note, resolve_index, grid_cell, grid_ok,
        slice_bound, List.foldlM_cons, List.foldlM_nil, bind, Except.bind, pure, Except.pure]
      try decide

/-- C8 amended: only a pitch whose key index `pitch - 21` falls outside
numpy's accepted basic-index range `[-88, 88)` — for a MIDI pitch, `pitch >
108` — makes the quantizer fail with `IndexError`; every event with
`pitch ≤ 108` is processed without error, even when `pitch < 21` (key index
wraps to `pitch - 21 + 88`) or `end_time < start_time` (the written slice
`[floor(start*rate), ceil(end*rate))` is simply whatever those bounds give,
possibly empty). -/
theorem quantizer_pitch_range_check (duration : ℚ) (rate : Nat) (e : NoteEvent) :
    (108 < e.pitch → grid_ok (convert_grid duration rate [e] []) = false)
    ∧ (e.pitch ≤ 108 → grid_ok (convert_grid duration rate [e] []) = true) := by
  constructor
  · intro hp
    have hres : resolve_index 88 ((e.pitch : Int) - 21) = .error "IndexError" := by
      unfold resolve_index
      rw [if_neg (by omega : ¬((e.pitch : Int) - 21 < 0))]
      rw [if_neg (by omega : ¬((0 : Int) ≤ (e.pitch : Int) - 21 ∧ (e.pitch : Int) - 21 < (88 : Nat)))]
    simp [convert_grid, process_hand, write_note, hres, grid_ok]
  · intro hp
    obtain ⟨k0, hres⟩ : ∃ k0, resolve_index 88 ((e.pitch : Int) - 21) = .ok k0 := by
      unfold resolve_index
      by_cases h21 : (e.pitch : Int) - 21 < 0
      · rw [if_pos h21, if_pos (by omega)]
        exact ⟨_, rfl⟩
      · rw [if_neg h21, if_pos (by omega)]
        exact ⟨_, rfl⟩
    simp [convert_grid, process_hand, write_note, hres, grid_ok, pure, Except.pure,
      List.foldlM_cons, List.foldlM_nil, bind, Except.bind]

/-- C8 amended witness: pitch 120 is rejected, pitch 20 is accepted. -/
theorem quantizer_pitch_range_check_witness :
    grid_ok (convert_grid 1 1 [⟨120, 0, 1⟩] []) = false
    ∧ grid_ok (convert_grid 1 1 [⟨20, 0, 1⟩] []) = true :=
  ⟨(quantizer_pitch_range_check 1 1 ⟨120, 0, 1⟩).1 (by decide),
   (quantizer_pitch_range_check 1 1 ⟨20, 0, 1⟩).2 (by decide)⟩

/-! ### Train/valid/test split (`AllData.initialize_from_dir`, lines 22–36)

`r = random.Random(42); r.shuffle(all_files)` permutes the sorted file list
deterministically (the Mersenne-Twister permutation itself is external
stdlib behaviour; the partition below is applied to the shuffled list,
whatever its order, so it is taken here as the input).  Then
`n_valid_test = math.ceil(len(all_files) * 0.15)`,
`n_train = len(all_files) - n_valid_test * 2`, and the three splits are the
Python slices `all_files[0:n_train]`,
`all_files[n_train : n_train + n_valid_test]`,
`all_files[n_train + n_valid_test : n_train + 2*n_valid_test]`
(lines 26–35, via `range_train`/`range_valid`/`range_test`). -/

def n_valid_test (N : Nat) : Nat := (⌈(N : ℚ) * 0.15⌉).toNat

def split_files {α : Type*} (files : List α) : List α × List α × List α :=
  let nvt := n_valid_test files.length
  let n_train : Int := (files.length : Int) - (nvt : Int) * 2
  (pySlice files 0 n_train,
   pySlice files n_train (n_train + nvt),
   pySlice files (n_train + nvt) (n_train + nvt + nvt))

theorem n_valid_test_eq (N : Nat) : n_valid_test N = (3 * N + 19) / 20 := by
  unfold n_valid_test
  have h15 : (0.15 : ℚ) = 3 / 20 := by norm_num
  rw [h15]
  set c := (3 * N + 19) / 20 with hc
  have h1 : 20 * c ≤ 3 * N + 19 ∧ 3 * N ≤ 20 * c := by omega
  have hceil : ⌈(N : ℚ) * (3 / 20)⌉ = (c : Int) := by
    rw [Int.ceil_eq_iff]
    constructor
    · rw [show (N : ℚ) * (3 / 20) = (3 * N : ℚ) / 20 by ring]
      rw [lt_div_iff₀ (by norm_num : (0 : ℚ) < 20)]
      have hZ : (20 * (c : Int) - 20 : Int) < 3 * (N : Int) := by omega
      have hQ : (20 * (c : ℚ) - 20) < 3 * (N : ℚ) := by exact_mod_cast hZ
      push_cast
      linarith
    · rw [show (N : ℚ) * (3 / 20) = (3 * N : ℚ) / 20 by ring]
      rw [div_le_iff₀ (by norm_num : (0 : ℚ) < 20)]
      have hZ : (3 * (N : Int) : Int) ≤ 20 * (c : Int) := by omega
      have hQ : (3 * (N : ℚ)) ≤ 20 * (c : ℚ) := by exact_mod_cast hZ
      push_cast
      linarith
  rw [hceil]
  exact Int.toNat_natCast c

/-- C9 counterexample: with a single available file (`N = 1`),
`n_valid_test = ceil(0.15) = 1`, so the claim demands one validation and one
test file — but `n_train = 1 - 2 = -1`, and under Python slice semantics the
training and validation slices are empty while the test slice holds the one
file: the validation list has 0 files, not `ceil(0.15 * 1) = 1`. -/
theorem split_files_single_file_cex :
    n_valid_test 1 = 1
    ∧ (split_files ["f"]).1 = ([] : List String)
    ∧ (split_files ["f"]).2.1 = ([] : List String)
    ∧ (split_files ["f"]).2.2 = ["f"] := by
  have h1 : n_valid_test 1 = 1 := by rw [n_valid_test_eq]
  refine ⟨h1, ?_, ?_, ?_⟩ <;>
    · simp only [split_files, List.length_cons, List.length_nil, h1]
      norm_num [pySlice, slice_bound]

/-- C9 amended: for every list of `N ≥ 2` available per-file artifacts (in
shuffled order), the partition consists of three consecutive slices:
validation and test each hold exactly `ceil(0.15 * N)` files, training holds
the remaining `N - 2 * ceil(0.15 * N)`, their concatenation is the whole
(shuffled) list, and for duplicate-free inputs the three lists are pairwise
disjoint.  (For `N = 1` this fails, see the counterexample: validation is
empty and the single file lands in test.) -/
theorem split_files_partition {α : Type*} (files : List α) (hN : 2 ≤ files.length) :
    (split_files files).1.length = files.length - 2 * n_valid_test files.length
    ∧ (split_files files).2.1.length = n_valid_test files.length
    ∧ (split_files files).2.2.length = n_valid_test files.length
    ∧ (split_files files).1 ++ (split_files files).2.1 ++ (split_files files).2.2 = files
    ∧ (files.Nodup →
        (split_files files).1.Disjoint (split_files files).2.1
        ∧ (split_files files).1.Disjoint (split_files files).2.2
        ∧ (split_files files).2.1.Disjoint (split_files files).2.2) := by
  set N := files.length with hNdef
  set nvt := n_valid_test N with hnvt
  have hnvt_div : nvt = (3 * N + 19) / 20 := n_valid_test_eq N
  have h2nvt : 2 * nvt ≤ N := by omega
  set nt := N - 2 * nvt with hnt
  have hcast0 : (0 : Int) = ((0 : Nat) : Int) := rfl
  have hcast1 : (N : Int) - (nvt : Int) * 2 = ((nt : Nat) : Int) := by omega
  have hcast2 : (N : Int) - (nvt : Int) * 2 + (nvt : Int) = ((nt + nvt : Nat) : Int) := by omega
  have hcast3 : (N : Int) - (nvt : Int) * 2 + (nvt : Int) + (nvt : Int) =
      ((nt + nvt + nvt : Nat) : Int) := by omega
  have hs1 : (split_files files).1 = files.take nt := by
    simp only [split_files, ← hNdef, ← hnvt, hcast0, hcast1]
    rw [pySlice_of_le files 0 nt (by omega) (by omega)]
    simp
  have hadd1 : ((nt : Nat) : Int) + (nvt : Int) = ((nt + nvt : Nat) : Int) := by push_cast; ring
  have hadd2 : ((nt + nvt : Nat) : Int) + (nvt : Int) = ((nt + nvt + nvt : Nat) : Int) := by
    push_cast; ring
  have hs2 : (split_files files).2.1 = (files.drop nt).take nvt := by
    simp only [split_files, ← hNdef, ← hnvt, hcast1, hadd1]
    rw [pySlice_of_le files nt (nt + nvt) (by omega) (by omega)]
    congr 1
    omega
  have hs3 : (split_files files).2.2 = files.drop (nt + nvt) := by
    simp only [split_files, ← hNdef, ← hnvt, hcast1, hadd1, hadd2]
    rw [pySlice_of_le files (nt + nvt) (nt + nvt + nvt) (by omega) (by omega)]
    rw [show nt + nvt + nvt - (nt + nvt) = nvt by omega]
    apply List.take_of_length_le
    rw [List.length_drop]
    omega
  have hl1 : (split_files files).1.length = nt := by
    rw [hs1, List.length_take]
    omega
  have hl2 : (split_files files).2.1.length = nvt := by
    rw [hs2, List.length_take, List.length_drop]
    omega
  have hl3 : (split_files files).2.2.length = nvt := by
    rw [hs3, List.length_drop]
    omega
  have hconcat : (split_files files).1 ++ (split_files files).2.1 ++ (split_files files).2.2
      = files := by
    rw [hs1, hs2, hs3, List.append_assoc]
    rw [show nt + nvt = nt + nvt from rfl, ← List.drop_drop]
    rw [List.take_append_drop, List.take_append_drop]
  refine ⟨by omega, hl2, hl3, hconcat, ?_⟩
  intro hnodup
  rw [← hconcat, List.append_assoc] at hnodup
  rw [List.nodup_append] at hnodup
  obtain ⟨-, hnodup23, hdisj1⟩ := hnodup
  rw [List.nodup_append] at hnodup23
  obtain ⟨-, -, hdisj23⟩ := hnodup23
  exact ⟨fun a ha1 ha2 => hdisj1 ha1 (List.mem_append_left _ ha2),
         fun a ha1 ha3 => hdisj1 ha1 (List.mem_append_right _ ha3),
         hdisj23⟩

/-- C9 amended witness: two files split as `([], [a], [b])`. -/
theorem split_files_partition_witness :
    2 ≤ (["a", "b"] : List String).length
    ∧ ((split_files ["a", "b"]).1.length = (["a", "b"] : List String).length - 2 * n_valid_test (["a", "b"] : List String).length
       ∧ (split_files ["a", "b"]).2.1.length = n_valid_test (["a", "b"] : List String).length
       ∧ (split_files ["a", "b"]).2.2.length = n_valid_test (["a", "b"] : List String).length
       ∧ (split_files ["a", "b"]).1 ++ (split_files ["a", "b"]).2.1 ++ (split_files ["a", "b"]).2.2 = ["a", "b"]
       ∧ ((["a", "b"] : List String).Nodup →
           (split_files ["a", "b"]).1.Disjoint (split_files ["a", "b"]).2.1
           ∧ (split_files ["a", "b"]).1.Disjoint (split_files ["a", "b"]).2.2
           ∧ (split_files ["a", "b"]).2.1.Disjoint (split_files ["a", "b"]).2.2)) :=
  ⟨by decide, split_files_partition ["a", "b"] (by decide)⟩

end Hannds
